import Mathlib

/-!
Verification of the reverse-diffusion inference core of `src/inference.py`
(class Configs: schedule coefficients, p_sample, _sample_x0, sample, predict).

Modelling decisions:
* Tensor values are rationals; the floating-point power `x ** 0.5` is embedded
  as an abstract function parameter (named sq below), since no claim depends on
  numeric properties of the square root itself.
* A tensor is a shape together with a valuation on multi-indices.  Elementwise
  torch operations use the usual right-aligned broadcasting rule; a
  non-broadcastable pair of shapes is the runtime shape error.
* Randomness (torch.randn draws) is passed in explicitly as valuation
  functions, so two runs with identical randomness are two calls with the same
  noise arguments.
* Functions of the repository that are not under src (the ddpm package:
  gather, DenoiseDiffusion's alpha/alpha_bar, model.p_sample, model.q_sample)
  are modelled from the spec; each such definition says so in its doc comment.
-/

namespace Polyffusion

/-- Error kinds of the spec's error taxonomy (section 7): the assert in
Configs.sample maps to configurationError, the tensor-runtime shape error in
elementwise arithmetic maps to shapeMismatchError. -/
inductive InferenceError where
  | configurationError : InferenceError
  | shapeMismatchError : InferenceError
deriving DecidableEq

/-- A tensor: a shape and a valuation on multi-indices. -/
structure Tensor where
  shape : List ℕ
  val : List ℕ → ℚ

/-- Torch broadcasting on reversed (trailing-aligned) dimension lists. -/
def bcastRev : List ℕ → List ℕ → Option (List ℕ)
  | [], bs => some bs
  | a :: as, [] => some (a :: as)
  | a :: as, b :: bs =>
    (bcastRev as bs).bind (fun rest =>
      if a = b then some (a :: rest)
      else if a = 1 then some (b :: rest)
      else if b = 1 then some (a :: rest)
      else none)

/-- Torch broadcasting of two shapes (right-aligned). -/
def broadcastShapes (s1 s2 : List ℕ) : Option (List ℕ) :=
  (bcastRev s1.reverse s2.reverse).map List.reverse

/-- Map a multi-index of the broadcast result shape back into an operand of
shape ts: keep the trailing ts.length coordinates and send size-1 dimensions
to coordinate 0. -/
def projIx (ts ix : List ℕ) : List ℕ :=
  List.zipWith (fun d i => if d = 1 then 0 else i) ts (ix.drop (ix.length - ts.length))

/-- Elementwise binary torch operation with broadcasting; a non-broadcastable
shape pair is the runtime shape error. -/
def ew2 (f : ℚ → ℚ → ℚ) (a b : Tensor) : Except InferenceError Tensor :=
  match broadcastShapes a.shape b.shape with
  | some s =>
    Except.ok ⟨s, fun ix => f (a.val (projIx a.shape ix)) (b.val (projIx b.shape ix))⟩
  | none => Except.error InferenceError.shapeMismatchError

/-- Elementwise unary torch operation (shape preserving, always defined). -/
def ew1 (f : ℚ → ℚ) (a : Tensor) : Tensor :=
  ⟨a.shape, fun ix => f (a.val ix)⟩

/-- Modelled from the spec: gather from ddpm.utils (not under src).  Per
section 4.2 step 1, it gathers the per-batch-item schedule scalar for the given
timestep vector and broadcasts it as a (n, 1, 1, 1) tensor. -/
def gather (consts : List ℚ) (t : List ℕ) : Tensor :=
  ⟨[t.length, 1, 1, 1], fun ix => consts.getD (t.getD (ix.headD 0) 0) 0⟩

/-- Elementwise product of two 1-D schedules (a 1-D tensor product). -/
def lmul (a b : List ℚ) : List ℚ := List.zipWith (fun x y => x * y) a b

/-- Elementwise quotient of two 1-D schedules. -/
def ldiv (a b : List ℚ) : List ℚ := List.zipWith (fun x y => x / y) a b

/-- The 1-D tensor operation (1 - v). -/
def oneSub (a : List ℚ) : List ℚ := a.map (fun x => 1 - x)

/-- Running products with accumulator, for the cumulative product. -/
def cumprodAux (acc : ℚ) : List ℚ → List ℚ
  | [] => []
  | a :: as => (acc * a) :: cumprodAux (acc * a) as

/-- Cumulative product of a list (torch.cumprod). -/
def cumprod (l : List ℚ) : List ℚ := cumprodAux 1 l

/-- Modelled from the spec: DenoiseDiffusion's alpha (ddpm package, not under
src): alpha_t = 1 - beta_t (section 4.1). -/
def alphaOf (beta : List ℚ) : List ℚ := beta.map (fun b => 1 - b)

/-- Modelled from the spec: DenoiseDiffusion's alpha_bar (ddpm package, not
under src): the cumulative product of alpha (section 4.1). -/
def alphaBarOf (beta : List ℚ) : List ℚ := cumprod (alphaOf beta)

/-- Source line 62: alpha_bar_tm1 = cat([ones(1), alpha_bar[:-1]]). -/
def alpha_bar_tm1 (alpha_bar : List ℚ) : List ℚ := 1 :: alpha_bar.dropLast

/-- The session state set up by Configs.__init__ (lines 51-72). -/
structure Configs where
  image_size_h : ℕ
  image_size_w : ℕ
  image_channels : ℕ
  n_steps : ℕ
  beta : List ℚ
  alpha : List ℚ
  alpha_bar : List ℚ
  beta_tilde : List ℚ
  mu_tilde_coef1 : List ℚ
  mu_tilde_coef2 : List ℚ
  sigma2 : List ℚ

/-- Configs.__init__ (lines 51-72): the schedule coefficients derived at
session construction.  beta has length n_steps; alpha and alpha_bar are the
DenoiseDiffusion schedules (modelled from the spec, section 4.1); lines 62-72
are translated directly. -/
def mkConfigs (sq : ℚ → ℚ) (image_channels image_size_h image_size_w : ℕ)
    (beta : List ℚ) : Configs :=
  let alpha := alphaOf beta
  let alpha_bar := alphaBarOf beta
  let abarTm1 := alpha_bar_tm1 alpha_bar
  { image_size_h := image_size_h
    image_size_w := image_size_w
    image_channels := image_channels
    n_steps := beta.length
    beta := beta
    alpha := alpha
    alpha_bar := alpha_bar
    beta_tilde := ldiv (lmul beta (oneSub abarTm1)) (oneSub alpha_bar)
    mu_tilde_coef1 := ldiv (lmul beta (abarTm1.map sq)) (oneSub alpha_bar)
    mu_tilde_coef2 := ldiv (lmul (alpha.map sq) (oneSub abarTm1)) (oneSub alpha_bar)
    sigma2 := beta }

/-- Configs.p_sample (lines 123-142), translated op by op.  noise is the
standard-normal draw torch.randn(xt.shape) made explicit. -/
def p_sample (sq : ℚ → ℚ) (cfg : Configs) (xt : Tensor) (t : List ℕ)
    (eps_theta : Tensor) (noise : List ℕ → ℚ) : Except InferenceError Tensor :=
  let alpha_bar := gather cfg.alpha_bar t
  let alpha := gather cfg.alpha t
  match ew2 (fun a b => a / b) (ew1 (fun v => 1 - v) alpha)
      (ew1 sq (ew1 (fun v => 1 - v) alpha_bar)) with
  | Except.error e => Except.error e
  | Except.ok eps_coef =>
    match ew2 (fun a b => a * b) eps_coef eps_theta with
    | Except.error e => Except.error e
    | Except.ok pr =>
      match ew2 (fun a b => a - b) xt pr with
      | Except.error e => Except.error e
      | Except.ok diff =>
        match ew2 (fun a b => a * b) (ew1 (fun v => 1 / v) (ew1 sq alpha)) diff with
        | Except.error e => Except.error e
        | Except.ok mean =>
          let var := gather cfg.sigma2 t
          let eps : Tensor := ⟨xt.shape, noise⟩
          match ew2 (fun a b => a * b) (ew1 sq var) eps with
          | Except.error e => Except.error e
          | Except.ok sdEps => ew2 (fun a b => a + b) mean sdEps

/-- Modelled from the spec: model.q_sample (ddpm package, not under src),
section 4.3: xt = sqrt(alpha_bar_t) * x0 + sqrt(1 - alpha_bar_t) * eps with
eps a standard-normal draw, shape preserved. -/
def q_sample (sq : ℚ → ℚ) (alpha_bar : List ℚ) (x0 : Tensor) (t : ℕ)
    (noise : List ℕ → ℚ) : Tensor :=
  ⟨x0.shape, fun ix =>
    sq (alpha_bar.getD t 0) * x0.val ix + sq (1 - alpha_bar.getD t 0) * noise ix⟩

/-- Modelled from the spec: the per-step transition model.p_sample (ddpm
package, not under src), section 4.4: it computes the noise estimate on the
current sample at t and applies the one-step reverse update (Configs.p_sample
with the per-batch timestep vector of line 89).  noise t is the fresh draw of
that step. -/
def model_p_sample (sq : ℚ → ℚ) (cfg : Configs) (eps_model : Tensor → ℕ → Tensor)
    (noise : ℕ → List ℕ → ℚ) (x : Tensor) (t : ℕ) : Except InferenceError Tensor :=
  p_sample sq cfg x (List.replicate (x.shape.headD 0) t) (eps_model x t) (noise t)

/-- The loop body of Configs._sample_x0 (lines 85-97), value semantics: fuel k
iterations remain, t_ is the 0-based elapsed iteration counter, and each
iteration replaces x by step x (n_steps - t_ - 1). -/
def sample_x0_go (step : Tensor → ℕ → Except InferenceError Tensor) (n_steps : ℕ) :
    ℕ → ℕ → Tensor → Except InferenceError Tensor
  | 0, _, x => Except.ok x
  | k + 1, t_, x =>
    match step x (n_steps - t_ - 1) with
    | Except.error e => Except.error e
    | Except.ok x' => sample_x0_go step n_steps k (t_ + 1) x'

/-- Configs._sample_x0 (lines 74-97), value semantics: iterate t_ over
range(n_steps) with t = n_steps - t_ - 1 and return the final sample. -/
def sample_x0 (step : Tensor → ℕ → Except InferenceError Tensor) (xt : Tensor)
    (n_steps : ℕ) : Except InferenceError Tensor :=
  sample_x0_go step n_steps n_steps 0 xt

/-- The first k iterations of the _sample_x0 loop (a prefix of the run). -/
def prefix_run (step : Tensor → ℕ → Except InferenceError Tensor) (n_steps k : ℕ)
    (xt : Tensor) : Except InferenceError Tensor :=
  sample_x0_go step n_steps k 0 xt

/-- The snapshot guard of line 91: t_ % 100 == 0 or (t_ >= 900 and t_ % 25 == 0). -/
abbrev snap_cond (t_ : ℕ) : Prop := t_ % 100 = 0 ∨ (900 ≤ t_ ∧ t_ % 25 = 0)

/-- The loop body of Configs._sample_x0 with the diagnostic side channel of
lines 91-94 reified: each emitted snapshot is recorded as the pair (current
timestep t, sample after the update at t). -/
def sample_x0_snaps_go (step : Tensor → ℕ → Except InferenceError Tensor)
    (n_steps : ℕ) :
    ℕ → ℕ → Tensor → Except InferenceError (Tensor × List (ℕ × Tensor))
  | 0, _, x => Except.ok (x, [])
  | k + 1, t_, x =>
    match step x (n_steps - t_ - 1) with
    | Except.error e => Except.error e
    | Except.ok x' =>
      match sample_x0_snaps_go step n_steps k (t_ + 1) x' with
      | Except.error e => Except.error e
      | Except.ok res =>
        if snap_cond t_ then Except.ok (res.1, (n_steps - t_ - 1, x') :: res.2)
        else Except.ok res

/-- Configs._sample_x0 (lines 74-97) with the diagnostic snapshots reified. -/
def sample_x0_snaps (step : Tensor → ℕ → Except InferenceError Tensor)
    (xt : Tensor) (n_steps : ℕ) :
    Except InferenceError (Tensor × List (ℕ × Tensor)) :=
  sample_x0_snaps_go step n_steps n_steps 0 xt

/-- Python's (init_step or self.n_steps) of line 117: None and 0 are falsy. -/
def pyOrNat (o : Option ℕ) (d : ℕ) : ℕ :=
  match o with
  | none => d
  | some v => if v = 0 then d else v

/-- Configs.sample (lines 99-121).  The assert of line 106 is the
configuration error; the unconditional branch draws pure noise of the
configured geometry (line 112, randn made explicit as init_noise); the
conditional branch seeds with model.q_sample (line 107); line 117 replaces a
falsy init_step by n_steps; line 119 runs the loop. -/
def sample (sq : ℚ → ℚ) (cfg : Configs)
    (step : Tensor → ℕ → Except InferenceError Tensor)
    (init_noise cond_noise : List ℕ → ℚ) (n_samples : ℕ)
    (init_cond : Option Tensor) (init_step : Option ℕ) :
    Except InferenceError Tensor :=
  match init_cond with
  | some c =>
    match init_step with
    | none => Except.error InferenceError.configurationError
    | some s =>
      sample_x0 step (q_sample sq cfg.alpha_bar c s cond_noise)
        (pyOrNat (some s) cfg.n_steps)
  | none =>
    sample_x0 step
      ⟨[n_samples, cfg.image_channels, cfg.image_size_h, cfg.image_size_w], init_noise⟩
      (pyOrNat init_step cfg.n_steps)

/-- Configs.predict (lines 144-161), value semantics (the export side effects
drop out).  The unconditional branch calls self.sample(n_samples) without
forwarding init_step (line 148); the conditional branch passes the selected
conditioning sample and init_step (line 156). -/
def predict (sq : ℚ → ℚ) (cfg : Configs)
    (step : Tensor → ℕ → Except InferenceError Tensor)
    (init_noise cond_noise : List ℕ → ℚ) (chosen_song : Tensor) (n_samples : ℕ)
    (init_cond : Bool) (init_step : Option ℕ) : Except InferenceError Tensor :=
  if !init_cond then
    sample sq cfg step init_noise cond_noise n_samples none none
  else
    sample sq cfg step init_noise cond_noise n_samples (some chosen_song) init_step

/-! Concrete example inputs, used to evaluate the development on closed
instances. -/

/-- The identity in place of the abstract square root, for closed instances. -/
def idSq : ℚ → ℚ := fun x => x

/-- A zero noise draw. -/
def zeroNoise : List ℕ → ℚ := fun _ => 0

/-- A zero noise draw for every step. -/
def zeroNoiseFam : ℕ → List ℕ → ℚ := fun _ _ => 0

/-- A two-step beta schedule with both values 1/2. -/
def betaHalf2 : List ℚ := [1/2, 1/2]

/-- A zero tensor of shape (1, 1, 1, 1). -/
def unitTensor : Tensor := ⟨[1, 1, 1, 1], fun _ => 0⟩

/-- A zero tensor of shape (1, 1, 1, 2). -/
def wideTensor : Tensor := ⟨[1, 1, 1, 2], fun _ => 0⟩

/-- A denoising stub returning its input unchanged. -/
def epsId : Tensor → ℕ → Tensor := fun x _ => x

/-- A denoising stub returning a rank-1 tensor of shape (1): a shape that
disagrees with any (n, c, h, w) sample but broadcasts against it. -/
def epsBad1 : Tensor → ℕ → Tensor := fun _ _ => ⟨[1], fun _ => 0⟩

/-- A denoising stub returning a rank-1 tensor of shape (3): not
broadcast-compatible with a sample whose last dimension is 2. -/
def epsBad3 : Tensor → ℕ → Tensor := fun _ _ => ⟨[3], fun _ => 0⟩

/-- A transition stub that keeps the sample unchanged. -/
def okStep : Tensor → ℕ → Except InferenceError Tensor := fun x _ => Except.ok x

/-! Basic lemmas about shapes, broadcasting and elementwise operations. -/

@[simp] theorem Tensor.shape_mk (s : List ℕ) (v : List ℕ → ℚ) :
    (Tensor.mk s v).shape = s := rfl

@[simp] theorem Tensor.val_mk (s : List ℕ) (v : List ℕ → ℚ) :
    (Tensor.mk s v).val = v := rfl

@[simp] theorem ew1_shape (f : ℚ → ℚ) (a : Tensor) : (ew1 f a).shape = a.shape := rfl

@[simp] theorem ew1_val (f : ℚ → ℚ) (a : Tensor) (ix : List ℕ) :
    (ew1 f a).val ix = f (a.val ix) := rfl

@[simp] theorem gather_shape (consts : List ℚ) (t : List ℕ) :
    (gather consts t).shape = [t.length, 1, 1, 1] := rfl

theorem bcastRev_self : ∀ l : List ℕ, bcastRev l l = some l := by
  intro l
  induction l with
  | nil => rfl
  | cons a as ih => simp [bcastRev, ih]

@[simp] theorem broadcastShapes_self (s : List ℕ) : broadcastShapes s s = some s := by
  simp [broadcastShapes, bcastRev_self]

theorem bcastRev_one_cons (a : ℕ) (as bs : List ℕ) :
    bcastRev (1 :: as) (a :: bs) = (bcastRev as bs).map (fun r => a :: r) := by
  rcases eq_or_ne 1 a with h | h
  · subst h
    cases hb : bcastRev as bs <;> simp [bcastRev, hb]
  · cases hb : bcastRev as bs <;> simp [bcastRev, hb, h]

@[simp] theorem bcast_coef (n c h w : ℕ) :
    broadcastShapes [n, 1, 1, 1] [n, c, h, w] = some [n, c, h, w] := by
  have h1 : bcastRev [n] [n] = some [n] := bcastRev_self [n]
  simp [broadcastShapes, bcastRev_one_cons, h1]

theorem ew2_ok (f : ℚ → ℚ → ℚ) (a b : Tensor) (s : List ℕ)
    (hs : broadcastShapes a.shape b.shape = some s) :
    ew2 f a b =
      Except.ok ⟨s, fun ix => f (a.val (projIx a.shape ix)) (b.val (projIx b.shape ix))⟩ := by
  unfold ew2
  rw [hs]

theorem ew2_err (f : ℚ → ℚ → ℚ) (a b : Tensor)
    (hs : broadcastShapes a.shape b.shape = none) :
    ew2 f a b = Except.error InferenceError.shapeMismatchError := by
  unfold ew2
  rw [hs]

theorem projIx_four (n c h w b i j k : ℕ) (hb : b < n) (hi : i < c) (hj : j < h)
    (hk : k < w) : projIx [n, c, h, w] [b, i, j, k] = [b, i, j, k] := by
  simp only [projIx, List.length_cons, List.length_nil]
  norm_num
  omega

theorem projIx_gather (n b i j k : ℕ) (hb : b < n) :
    projIx [n, 1, 1, 1] [b, i, j, k] = [b, 0, 0, 0] := by
  simp only [projIx, List.length_cons, List.length_nil]
  norm_num
  omega

/-! Lemmas about the sampling loop. -/

theorem range_reverse_succ (k : ℕ) :
    (List.range (k + 1)).reverse = k :: (List.range k).reverse := by
  rw [List.range_succ, List.reverse_append]
  rfl

theorem sample_x0_go_eq_foldlM (step : Tensor → ℕ → Except InferenceError Tensor)
    (S : ℕ) :
    ∀ (k t_ : ℕ) (x : Tensor), k + t_ = S →
      sample_x0_go step S k t_ x = (List.range k).reverse.foldlM step x := by
  intro k
  induction k with
  | zero => intro t_ x _; rfl
  | succ k ih =>
    intro t_ x hk
    have hstep : S - t_ - 1 = k := by omega
    rw [range_reverse_succ, List.foldlM_cons]
    show (match step x (S - t_ - 1) with
      | Except.error e => Except.error e
      | Except.ok x' => sample_x0_go step S k (t_ + 1) x') = _
    rw [hstep]
    cases hs : step x k with
    | error e => simp [Bind.bind, Except.bind]
    | ok x' =>
      simp only [Bind.bind, Except.bind]
      exact ih (t_ + 1) x' (by omega)

/-- The _sample_x0 loop is the fold of the transition along the descending
timestep list. -/
theorem sample_x0_eq_foldlM (step : Tensor → ℕ → Except InferenceError Tensor)
    (xt : Tensor) (S : ℕ) :
    sample_x0 step xt S = (List.range S).reverse.foldlM step xt :=
  sample_x0_go_eq_foldlM step S S 0 xt (by omega)

theorem sample_x0_go_succ (step : Tensor → ℕ → Except InferenceError Tensor)
    (S k t_ : ℕ) (x : Tensor) :
    sample_x0_go step S (k + 1) t_ x =
      match step x (S - t_ - 1) with
      | Except.error e => Except.error e
      | Except.ok x' => sample_x0_go step S k (t_ + 1) x' := rfl

theorem sample_x0_snaps_go_succ (step : Tensor → ℕ → Except InferenceError Tensor)
    (S k t_ : ℕ) (x : Tensor) :
    sample_x0_snaps_go step S (k + 1) t_ x =
      match step x (S - t_ - 1) with
      | Except.error e => Except.error e
      | Except.ok x' =>
        match sample_x0_snaps_go step S k (t_ + 1) x' with
        | Except.error e => Except.error e
        | Except.ok res =>
          if snap_cond t_ then Except.ok (res.1, (S - t_ - 1, x') :: res.2)
          else Except.ok res := rfl

theorem sample_x0_go_fuel_add (step : Tensor → ℕ → Except InferenceError Tensor)
    (S : ℕ) :
    ∀ (a b t_ : ℕ) (x : Tensor),
      sample_x0_go step S (a + b) t_ x =
        match sample_x0_go step S a t_ x with
        | Except.error e => Except.error e
        | Except.ok y => sample_x0_go step S b (t_ + a) y := by
  intro a
  induction a with
  | zero =>
    intro b t_ x
    rw [Nat.zero_add]
    rfl
  | succ a ih =>
    intro b t_ x
    have hadd : a + 1 + b = (a + b) + 1 := by omega
    rw [hadd, sample_x0_go_succ step S (a + b) t_ x, sample_x0_go_succ step S a t_ x]
    cases hs : step x (S - t_ - 1) with
    | error e => rfl
    | ok x' =>
      show sample_x0_go step S (a + b) (t_ + 1) x' =
        match sample_x0_go step S a (t_ + 1) x' with
        | Except.error e => Except.error e
        | Except.ok y => sample_x0_go step S b (t_ + (a + 1)) y
      rw [ih b (t_ + 1) x']
      have harith : t_ + 1 + a = t_ + (a + 1) := by omega
      rw [harith]

theorem sample_x0_go_ok_of_ok (step : Tensor → ℕ → Except InferenceError Tensor)
    (S k j t_ : ℕ) (x : Tensor) (xf : Tensor) (hjk : j ≤ k)
    (h : sample_x0_go step S k t_ x = Except.ok xf) :
    ∃ y, sample_x0_go step S j t_ x = Except.ok y := by
  have hk : k = j + (k - j) := by omega
  rw [hk, sample_x0_go_fuel_add step S j (k - j) t_ x] at h
  cases hs : sample_x0_go step S j t_ x with
  | error e => rw [hs] at h; exact absurd h (by simp)
  | ok y => exact ⟨y, rfl⟩

/-- An error in the first transition aborts the loop with that error. -/
theorem sample_x0_error_first (step : Tensor → ℕ → Except InferenceError Tensor)
    (xt : Tensor) (S : ℕ) (hS : 1 ≤ S) (e : InferenceError)
    (h : step xt (S - 1) = Except.error e) :
    sample_x0 step xt S = Except.error e := by
  obtain ⟨k, rfl⟩ : ∃ k, S = k + 1 := ⟨S - 1, by omega⟩
  unfold sample_x0
  rw [sample_x0_go_succ]
  have hk : k + 1 - 0 - 1 = k + 1 - 1 := by omega
  rw [hk, h]

/-! Lemmas about the loop with the diagnostic snapshot channel. -/

theorem sample_x0_snaps_go_fst (step : Tensor → ℕ → Except InferenceError Tensor)
    (S : ℕ) :
    ∀ (k t_ : ℕ) (x : Tensor),
      (sample_x0_snaps_go step S k t_ x).map Prod.fst = sample_x0_go step S k t_ x := by
  intro k
  induction k with
  | zero => intro t_ x; rfl
  | succ k ih =>
    intro t_ x
    rw [sample_x0_snaps_go_succ, sample_x0_go_succ]
    cases hs : step x (S - t_ - 1) with
    | error e => rfl
    | ok x' =>
      show (match sample_x0_snaps_go step S k (t_ + 1) x' with
        | Except.error e => Except.error e
        | Except.ok res =>
          if snap_cond t_ then Except.ok (res.1, (S - t_ - 1, x') :: res.2)
          else Except.ok res).map Prod.fst = sample_x0_go step S k (t_ + 1) x'
      rw [← ih (t_ + 1) x']
      cases hr : sample_x0_snaps_go step S k (t_ + 1) x' with
      | error e => rfl
      | ok res => by_cases hc : snap_cond t_ <;> simp [hc, Except.map]

theorem sample_x0_snaps_go_char (step : Tensor → ℕ → Except InferenceError Tensor)
    (S : ℕ) :
    ∀ (k t_ : ℕ) (x : Tensor) (xf : Tensor) (snaps : List (ℕ × Tensor)),
      sample_x0_snaps_go step S k t_ x = Except.ok (xf, snaps) →
      snaps = (List.range k).filterMap (fun j =>
        if snap_cond (t_ + j) then
          match sample_x0_go step S (j + 1) t_ x with
          | Except.ok y => some (S - (t_ + j) - 1, y)
          | Except.error _ => none
        else none) := by
  intro k
  induction k with
  | zero =>
    intro t_ x xf snaps h
    simp only [sample_x0_snaps_go, Except.ok.injEq, Prod.mk.injEq] at h
    rw [← h.2]
    simp
  | succ k ih =>
    intro t_ x xf snaps h
    rw [sample_x0_snaps_go_succ] at h
    cases hs : step x (S - t_ - 1) with
    | error e =>
      rw [hs] at h
      have h2 : (Except.error e : Except InferenceError (Tensor × List (ℕ × Tensor))) =
        Except.ok (xf, snaps) := h
      exact absurd h2 (by simp)
    | ok x' =>
      rw [hs] at h
      have h2 : (match sample_x0_snaps_go step S k (t_ + 1) x' with
        | Except.error e => Except.error e
        | Except.ok res =>
          if snap_cond t_ then Except.ok (res.1, (S - t_ - 1, x') :: res.2)
          else Except.ok res) = Except.ok (xf, snaps) := h
      cases hr : sample_x0_snaps_go step S k (t_ + 1) x' with
      | error e =>
        rw [hr] at h2
        have h3 : (Except.error e : Except InferenceError (Tensor × List (ℕ × Tensor))) =
          Except.ok (xf, snaps) := h2
        exact absurd h3 (by simp)
      | ok res =>
        rw [hr] at h2
        obtain ⟨rx, rsnaps⟩ := res
        have h3 : (if snap_cond t_ then
            Except.ok ((rx, rsnaps).1, (S - t_ - 1, x') :: (rx, rsnaps).2)
          else (Except.ok (rx, rsnaps) :
            Except InferenceError (Tensor × List (ℕ × Tensor)))) =
          Except.ok (xf, snaps) := h2
        have htail := ih (t_ + 1) x' rx rsnaps hr
        have hgo1 : sample_x0_go step S 1 t_ x = Except.ok x' := by
          rw [sample_x0_go_succ, hs]
          rfl
        have hfun : (fun j => (if snap_cond (t_ + Nat.succ j) then
            match sample_x0_go step S (Nat.succ j + 1) t_ x with
            | Except.ok y => some (S - (t_ + Nat.succ j) - 1, y)
            | Except.error _ => none
          else none)) = (fun j => (if snap_cond (t_ + 1 + j) then
            match sample_x0_go step S (j + 1) (t_ + 1) x' with
            | Except.ok y => some (S - (t_ + 1 + j) - 1, y)
            | Except.error _ => none
          else none)) := by
          funext j
          have ha1 : t_ + Nat.succ j = t_ + 1 + j := by omega
          have ha2 : Nat.succ j + 1 = (j + 1) + 1 := by omega
          rw [ha1, ha2, sample_x0_go_succ, hs]
        rw [List.range_succ_eq_map, List.filterMap_cons, List.filterMap_map]
        by_cases hc : snap_cond t_
        · rw [if_pos hc] at h3
          simp only [Except.ok.injEq, Prod.mk.injEq] at h3
          rw [← h3.2]
          simp only [Nat.add_zero, hgo1, if_pos hc]
          rw [htail, Function.comp_def, hfun]
        · rw [if_neg hc] at h3
          simp only [Except.ok.injEq, Prod.mk.injEq] at h3
          rw [← h3.2]
          simp only [Nat.add_zero, hgo1, if_neg hc]
          rw [htail, Function.comp_def, hfun]

/-! Lemmas about the 1-D schedule computations. -/

@[simp] theorem cumprodAux_length (l : List ℚ) :
    ∀ acc : ℚ, (cumprodAux acc l).length = l.length := by
  induction l with
  | nil => intro acc; rfl
  | cons a as ih => intro acc; simp [cumprodAux, ih]

@[simp] theorem cumprod_length (l : List ℚ) : (cumprod l).length = l.length :=
  cumprodAux_length l 1

@[simp] theorem alphaOf_length (beta : List ℚ) : (alphaOf beta).length = beta.length := by
  simp [alphaOf]

@[simp] theorem alphaBarOf_length (beta : List ℚ) :
    (alphaBarOf beta).length = beta.length := by
  simp [alphaBarOf]

@[simp] theorem oneSub_length (l : List ℚ) : (oneSub l).length = l.length := by
  simp [oneSub]

theorem getD_zipWith (f : ℚ → ℚ → ℚ) (a b : List ℚ) (t : ℕ) (ha : t < a.length)
    (hb : t < b.length) :
    (List.zipWith f a b).getD t 0 = f (a.getD t 0) (b.getD t 0) := by
  have hl : t < (List.zipWith f a b).length := by simp; omega
  rw [List.getD_eq_getElem _ _ hl, List.getD_eq_getElem _ _ ha,
    List.getD_eq_getElem _ _ hb]
  simp

theorem getD_map (f : ℚ → ℚ) (l : List ℚ) (t : ℕ) (ht : t < l.length) :
    (l.map f).getD t 0 = f (l.getD t 0) := by
  have hl : t < (l.map f).length := by simp; omega
  rw [List.getD_eq_getElem _ _ hl, List.getD_eq_getElem _ _ ht]
  simp

theorem alpha_bar_tm1_getD_zero (l : List ℚ) : (alpha_bar_tm1 l).getD 0 0 = 1 := rfl

theorem alpha_bar_tm1_getD_succ (l : List ℚ) (t : ℕ) (h0 : 0 < t)
    (ht : t < l.length) : (alpha_bar_tm1 l).getD t 0 = l.getD (t - 1) 0 := by
  obtain ⟨u, rfl⟩ : ∃ u, t = u + 1 := ⟨t - 1, by omega⟩
  show l.dropLast.getD u 0 = l.getD (u + 1 - 1) 0
  have hu : u + 1 - 1 = u := by omega
  have hdl : u < l.dropLast.length := by simp [List.length_dropLast]; omega
  have hul : u < l.length := by omega
  rw [hu, List.getD_eq_getElem _ _ hdl, List.getD_eq_getElem _ _ hul]
  simp [List.getElem_dropLast]

theorem alpha_bar_tm1_length (l : List ℚ) (h : l ≠ []) :
    (alpha_bar_tm1 l).length = l.length := by
  have h1 : 0 < l.length := List.length_pos.mpr h
  simp [alpha_bar_tm1, List.length_dropLast]
  omega

theorem mkConfigs_beta (sq : ℚ → ℚ) (C H W : ℕ) (beta : List ℚ) :
    (mkConfigs sq C H W beta).beta = beta := rfl

theorem mkConfigs_alpha (sq : ℚ → ℚ) (C H W : ℕ) (beta : List ℚ) :
    (mkConfigs sq C H W beta).alpha = alphaOf beta := rfl

theorem mkConfigs_alpha_bar (sq : ℚ → ℚ) (C H W : ℕ) (beta : List ℚ) :
    (mkConfigs sq C H W beta).alpha_bar = alphaBarOf beta := rfl

theorem mkConfigs_sigma2 (sq : ℚ → ℚ) (C H W : ℕ) (beta : List ℚ) :
    (mkConfigs sq C H W beta).sigma2 = beta := rfl

theorem mkConfigs_n_steps (sq : ℚ → ℚ) (C H W : ℕ) (beta : List ℚ) :
    (mkConfigs sq C H W beta).n_steps = beta.length := rfl

theorem beta_nonnil_of_lt (beta : List ℚ) (t : ℕ) (ht : t < beta.length) :
    alphaBarOf beta ≠ [] := by
  have : 0 < (alphaBarOf beta).length := by simp; omega
  exact List.length_pos.mp this

theorem beta_tilde_getD (sq : ℚ → ℚ) (C H W : ℕ) (beta : List ℚ) (t : ℕ)
    (ht : t < beta.length) :
    (mkConfigs sq C H W beta).beta_tilde.getD t 0 =
      beta.getD t 0 * (1 - (alpha_bar_tm1 (alphaBarOf beta)).getD t 0) /
        (1 - (alphaBarOf beta).getD t 0) := by
  have htm1 : (alpha_bar_tm1 (alphaBarOf beta)).length = beta.length := by
    rw [alpha_bar_tm1_length _ (beta_nonnil_of_lt beta t ht)]
    simp
  have hA : t < (List.zipWith (fun x y => x * y) beta
      ((alpha_bar_tm1 (alphaBarOf beta)).map (fun x => 1 - x))).length := by
    simp [htm1]
    omega
  have hB : t < ((alphaBarOf beta).map (fun x => 1 - x)).length := by
    simp
    omega
  have hT : t < ((alpha_bar_tm1 (alphaBarOf beta)).map (fun x => 1 - x)).length := by
    simp [htm1]
    omega
  have hT0 : t < (alpha_bar_tm1 (alphaBarOf beta)).length := by omega
  have hab : t < (alphaBarOf beta).length := by simp; omega
  show (ldiv (lmul beta (oneSub (alpha_bar_tm1 (alphaBarOf beta))))
      (oneSub (alphaBarOf beta))).getD t 0 = _
  simp only [ldiv, lmul, oneSub]
  rw [getD_zipWith _ _ _ t hA hB, getD_zipWith _ _ _ t (by omega) hT,
    getD_map _ _ t hT0, getD_map _ _ t hab]

theorem mu_tilde_coef1_getD (sq : ℚ → ℚ) (C H W : ℕ) (beta : List ℚ) (t : ℕ)
    (ht : t < beta.length) :
    (mkConfigs sq C H W beta).mu_tilde_coef1.getD t 0 =
      beta.getD t 0 * sq ((alpha_bar_tm1 (alphaBarOf beta)).getD t 0) /
        (1 - (alphaBarOf beta).getD t 0) := by
  have htm1 : (alpha_bar_tm1 (alphaBarOf beta)).length = beta.length := by
    rw [alpha_bar_tm1_length _ (beta_nonnil_of_lt beta t ht)]
    simp
  have hA : t < (List.zipWith (fun x y => x * y) beta
      ((alpha_bar_tm1 (alphaBarOf beta)).map sq)).length := by
    simp [htm1]
    omega
  have hB : t < ((alphaBarOf beta).map (fun x => 1 - x)).length := by
    simp
    omega
  have hT : t < ((alpha_bar_tm1 (alphaBarOf beta)).map sq).length := by
    simp [htm1]
    omega
  have hT0 : t < (alpha_bar_tm1 (alphaBarOf beta)).length := by omega
  have hab : t < (alphaBarOf beta).length := by simp; omega
  show (ldiv (lmul beta ((alpha_bar_tm1 (alphaBarOf beta)).map sq))
      (oneSub (alphaBarOf beta))).getD t 0 = _
  simp only [ldiv, lmul, oneSub]
  rw [getD_zipWith _ _ _ t hA hB, getD_zipWith _ _ _ t (by omega) hT,
    getD_map _ _ t hT0, getD_map _ _ t hab]

theorem mu_tilde_coef2_getD (sq : ℚ → ℚ) (C H W : ℕ) (beta : List ℚ) (t : ℕ)
    (ht : t < beta.length) :
    (mkConfigs sq C H W beta).mu_tilde_coef2.getD t 0 =
      sq ((alphaOf beta).getD t 0) *
          (1 - (alpha_bar_tm1 (alphaBarOf beta)).getD t 0) /
        (1 - (alphaBarOf beta).getD t 0) := by
  have htm1 : (alpha_bar_tm1 (alphaBarOf beta)).length = beta.length := by
    rw [alpha_bar_tm1_length _ (beta_nonnil_of_lt beta t ht)]
    simp
  have hA : t < (List.zipWith (fun x y => x * y) ((alphaOf beta).map sq)
      ((alpha_bar_tm1 (alphaBarOf beta)).map (fun x => 1 - x))).length := by
    simp [htm1]
    omega
  have hB : t < ((alphaBarOf beta).map (fun x => 1 - x)).length := by
    simp
    omega
  have hT : t < ((alpha_bar_tm1 (alphaBarOf beta)).map (fun x => 1 - x)).length := by
    simp [htm1]
    omega
  have hal : t < ((alphaOf beta).map sq).length := by simp; omega
  have hal0 : t < (alphaOf beta).length := by simp; omega
  have hT0 : t < (alpha_bar_tm1 (alphaBarOf beta)).length := by omega
  have hab : t < (alphaBarOf beta).length := by simp; omega
  show (ldiv (lmul ((alphaOf beta).map sq) (oneSub (alpha_bar_tm1 (alphaBarOf beta))))
      (oneSub (alphaBarOf beta))).getD t 0 = _
  simp only [ldiv, lmul, oneSub]
  rw [getD_zipWith _ _ _ t hA hB, getD_zipWith _ _ _ t hal hT,
    getD_map sq _ t hal0, getD_map _ _ t hT0, getD_map _ _ t hab]

/-! Order facts about the cumulative product, for the posterior-variance
bounds. -/

theorem cumprodAux_pos_lt (l : List ℚ) :
    ∀ (acc : ℚ), 0 < acc → acc ≤ 1 → (∀ a ∈ l, 0 < a ∧ a < 1) →
      ∀ t < l.length,
        0 < (cumprodAux acc l).getD t 0 ∧ (cumprodAux acc l).getD t 0 < 1 := by
  induction l with
  | nil => intro acc _ _ _ t ht; simp at ht
  | cons a as ih =>
    intro acc hacc hacc1 hmem t ht
    obtain ⟨ha0, ha1⟩ := hmem a (by simp)
    cases t with
    | zero =>
      show 0 < acc * a ∧ acc * a < 1
      constructor
      · exact mul_pos hacc ha0
      · nlinarith
    | succ t =>
      show 0 < (cumprodAux (acc * a) as).getD t 0 ∧
        (cumprodAux (acc * a) as).getD t 0 < 1
      exact ih (acc * a) (mul_pos hacc ha0) (by nlinarith)
        (fun b hb => hmem b (by simp [hb])) t (by simp at ht; omega)

theorem cumprodAux_succ_le (l : List ℚ) :
    ∀ (acc : ℚ), 0 < acc → (∀ a ∈ l, 0 < a ∧ a < 1) →
      ∀ t, t + 1 < l.length →
        (cumprodAux acc l).getD (t + 1) 0 ≤ (cumprodAux acc l).getD t 0 := by
  induction l with
  | nil => intro acc _ _ t ht; simp at ht
  | cons a as ih =>
    intro acc hacc hmem t ht
    obtain ⟨ha0, ha1⟩ := hmem a (by simp)
    cases t with
    | zero =>
      cases as with
      | nil => simp at ht
      | cons b bs =>
        obtain ⟨hb0, hb1⟩ := hmem b (by simp)
        show (cumprodAux (acc * a) (b :: bs)).getD 0 0 ≤ acc * a
        show acc * a * b ≤ acc * a
        exact mul_le_of_le_one_right (mul_pos hacc ha0).le hb1.le
    | succ t =>
      show (cumprodAux (acc * a) as).getD (t + 1) 0 ≤
        (cumprodAux (acc * a) as).getD t 0
      exact ih (acc * a) (mul_pos hacc ha0)
        (fun b hb => hmem b (by simp [hb])) t (by simp at ht; omega)

theorem alphaOf_mem (beta : List ℚ) (hβ : ∀ b ∈ beta, 0 < b ∧ b < 1) :
    ∀ a ∈ alphaOf beta, 0 < a ∧ a < 1 := by
  intro a ha
  simp only [alphaOf, List.mem_map] at ha
  obtain ⟨b, hb, rfl⟩ := ha
  obtain ⟨hb0, hb1⟩ := hβ b hb
  constructor <;> linarith

theorem alphaBarOf_pos_lt (beta : List ℚ) (hβ : ∀ b ∈ beta, 0 < b ∧ b < 1)
    (t : ℕ) (ht : t < beta.length) :
    0 < (alphaBarOf beta).getD t 0 ∧ (alphaBarOf beta).getD t 0 < 1 :=
  cumprodAux_pos_lt (alphaOf beta) 1 (by norm_num) (by norm_num)
    (alphaOf_mem beta hβ) t (by simp; omega)

theorem alphaBarOf_succ_le (beta : List ℚ) (hβ : ∀ b ∈ beta, 0 < b ∧ b < 1)
    (t : ℕ) (ht : t + 1 < beta.length) :
    (alphaBarOf beta).getD (t + 1) 0 ≤ (alphaBarOf beta).getD t 0 :=
  cumprodAux_succ_le (alphaOf beta) 1 (by norm_num) (alphaOf_mem beta hβ) t
    (by simp; omega)

theorem range_rev_map (S : ℕ) :
    (List.range S).reverse = (List.range S).map (fun i => S - 1 - i) := by
  induction S with
  | zero => rfl
  | succ S ih =>
    rw [range_reverse_succ, List.range_succ_eq_map S, List.map_cons, List.map_map]
    have h0 : S + 1 - 1 - 0 = S := by omega
    rw [h0, ih]
    have hf : ((fun i => S + 1 - 1 - i) ∘ Nat.succ) = fun i => S - 1 - i := by
      funext i
      simp only [Function.comp_apply]
      omega
    rw [hf]

/-! The claim theorems. -/

/-- Claim C5: a call to sample() with init_cond set but init_step = None
returns the configuration error (the assert of line 106), for every session,
transition function, noise source, batch size and conditioning tensor; since
the error is produced identically for all of them, no forward-noising, loop
transition or use of the conditioning values occurs before the error. -/
theorem c5_config_error (sq : ℚ → ℚ) (cfg : Configs)
    (step : Tensor → ℕ → Except InferenceError Tensor)
    (init_noise cond_noise : List ℕ → ℚ) (n_samples : ℕ) (c : Tensor) :
    sample sq cfg step init_noise cond_noise n_samples (some c) none =
      Except.error InferenceError.configurationError := rfl

/-- Claim C9: a falsy init_step = some 0 is replaced by n_steps before the
loop starts: unconditionally the call behaves exactly like init_step = None
(the full n_steps schedule), and conditionally init_step = some 0 passes the
not-None check, seeds with the forward-noised conditioning at step 0, and
still runs the loop for the full n_steps transitions. -/
theorem c9_falsy_init_step (sq : ℚ → ℚ) (cfg : Configs)
    (step : Tensor → ℕ → Except InferenceError Tensor)
    (init_noise cond_noise : List ℕ → ℚ) (n_samples : ℕ) :
    sample sq cfg step init_noise cond_noise n_samples none (some 0) =
      sample sq cfg step init_noise cond_noise n_samples none none ∧
    ∀ c : Tensor,
      sample sq cfg step init_noise cond_noise n_samples (some c) (some 0) =
        sample_x0 step (q_sample sq cfg.alpha_bar c 0 cond_noise) cfg.n_steps :=
  ⟨rfl, fun _ => rfl⟩

/-- Claim C10: unconditional predict() does not forward init_step to sample(),
so with identical randomness the result is independent of init_step; in
particular the command-line entry point's init_step = 100 produces the same
value as no init_step at all. -/
theorem c10_predict_independent (sq : ℚ → ℚ) (cfg : Configs)
    (step : Tensor → ℕ → Except InferenceError Tensor)
    (init_noise cond_noise : List ℕ → ℚ) (chosen_song : Tensor) (n_samples : ℕ)
    (s1 s2 : Option ℕ) :
    predict sq cfg step init_noise cond_noise chosen_song n_samples false s1 =
      predict sq cfg step init_noise cond_noise chosen_song n_samples false s2 ∧
    predict sq cfg step init_noise cond_noise chosen_song n_samples false (some 100) =
      predict sq cfg step init_noise cond_noise chosen_song n_samples false none :=
  ⟨rfl, rfl⟩

/-- Claim C4: sample() with a conditioning tensor and supplied init_step seeds
the reverse loop with the forward-noised conditioning sample (model.q_sample
at step init_step, the closed form sqrt(alpha_bar_t) x0 + sqrt(1-alpha_bar_t)
eps) rather than with the pure-noise draw: the run equals the loop started at
that seed, whose values are the closed form applied to the conditioning
sample, and whose shape is the conditioning sample's. -/
theorem c4_conditional_seed (sq : ℚ → ℚ) (cfg : Configs)
    (step : Tensor → ℕ → Except InferenceError Tensor)
    (init_noise cond_noise : List ℕ → ℚ) (n_samples : ℕ) (c : Tensor) (s : ℕ) :
    sample sq cfg step init_noise cond_noise n_samples (some c) (some s) =
      sample_x0 step (q_sample sq cfg.alpha_bar c s cond_noise)
        (pyOrNat (some s) cfg.n_steps) ∧
    (q_sample sq cfg.alpha_bar c s cond_noise).shape = c.shape ∧
    ∀ ix : List ℕ,
      (q_sample sq cfg.alpha_bar c s cond_noise).val ix =
        sq (cfg.alpha_bar.getD s 0) * c.val ix +
          sq (1 - cfg.alpha_bar.getD s 0) * cond_noise ix :=
  ⟨rfl, rfl, fun _ => rfl⟩

/-- Claim C2: the sampling loop started with init_step = S (S at least 1)
applies exactly S transitions, visiting the timesteps S-1, S-2, ..., 0 in
strictly descending order down to 0, each transition computing the noise
estimate on the current sample at t and replacing the current sample with the
one-step reverse update p_sample; the returned value is the fold of those
transitions, ending with the t = 0 transition. -/
theorem c2_sampling_loop (sq : ℚ → ℚ) (cfg : Configs)
    (eps_model : Tensor → ℕ → Tensor) (noise : ℕ → List ℕ → ℚ) (xt : Tensor)
    (S : ℕ) (hS : 1 ≤ S) :
    ((List.range S).map (fun i => S - 1 - i)).length = S ∧
    List.Chain' (fun a b => b + 1 = a) ((List.range S).map (fun i => S - 1 - i)) ∧
    ((List.range S).map (fun i => S - 1 - i)).getLastD 1 = 0 ∧
    sample_x0 (model_p_sample sq cfg eps_model noise) xt S =
      ((List.range S).map (fun i => S - 1 - i)).foldlM
        (fun x t => p_sample sq cfg x (List.replicate (x.shape.headD 0) t)
          (eps_model x t) (noise t)) xt := by
  obtain ⟨k, rfl⟩ : ∃ k, S = k + 1 := ⟨S - 1, by omega⟩
  refine ⟨by simp, ?_, ?_, ?_⟩
  · rw [← range_rev_map, List.chain'_reverse, List.chain'_range_succ]
    intro m _
    rfl
  · rw [← range_rev_map, List.getLastD_eq_getLast?, List.getLast?_reverse]
    rw [List.range_succ_eq_map]
    rfl
  · rw [← range_rev_map, sample_x0_eq_foldlM]
    rfl

/-- Claim C3: the schedule coefficients computed at session construction
satisfy, at every timestep t below the schedule length: the shifted product
has value 1 at index 0 and the previous cumulative product at positive
indices, beta_tilde is beta (1 - alpha_bar_prev) / (1 - alpha_bar),
mu_tilde_coef1 is beta sqrt(alpha_bar_prev) / (1 - alpha_bar), mu_tilde_coef2
is sqrt(alpha) (1 - alpha_bar_prev) / (1 - alpha_bar), and sigma2 is beta. -/
theorem c3_schedule_coefficients (sq : ℚ → ℚ) (C H W : ℕ) (beta : List ℚ)
    (t : ℕ) (ht : t < beta.length) :
    (alpha_bar_tm1 (mkConfigs sq C H W beta).alpha_bar).getD 0 0 = 1 ∧
    (0 < t →
      (alpha_bar_tm1 (mkConfigs sq C H W beta).alpha_bar).getD t 0 =
        (mkConfigs sq C H W beta).alpha_bar.getD (t - 1) 0) ∧
    (mkConfigs sq C H W beta).beta_tilde.getD t 0 =
      (mkConfigs sq C H W beta).beta.getD t 0 *
          (1 - (alpha_bar_tm1 (mkConfigs sq C H W beta).alpha_bar).getD t 0) /
        (1 - (mkConfigs sq C H W beta).alpha_bar.getD t 0) ∧
    (mkConfigs sq C H W beta).mu_tilde_coef1.getD t 0 =
      (mkConfigs sq C H W beta).beta.getD t 0 *
          sq ((alpha_bar_tm1 (mkConfigs sq C H W beta).alpha_bar).getD t 0) /
        (1 - (mkConfigs sq C H W beta).alpha_bar.getD t 0) ∧
    (mkConfigs sq C H W beta).mu_tilde_coef2.getD t 0 =
      sq ((mkConfigs sq C H W beta).alpha.getD t 0) *
          (1 - (alpha_bar_tm1 (mkConfigs sq C H W beta).alpha_bar).getD t 0) /
        (1 - (mkConfigs sq C H W beta).alpha_bar.getD t 0) ∧
    (mkConfigs sq C H W beta).sigma2.getD t 0 =
      (mkConfigs sq C H W beta).beta.getD t 0 := by
  refine ⟨alpha_bar_tm1_getD_zero _, ?_, ?_, ?_, ?_, rfl⟩
  · intro h0
    exact alpha_bar_tm1_getD_succ _ t h0 (by simp [mkConfigs_alpha_bar]; omega)
  · exact beta_tilde_getD sq C H W beta t ht
  · exact mu_tilde_coef1_getD sq C H W beta t ht
  · exact mu_tilde_coef2_getD sq C H W beta t ht

/-- Claim C8: for a beta schedule with all values in (0,1), the derived
posterior variance satisfies 0 <= beta_tilde_t <= beta_t at every t below the
schedule length. -/
theorem c8_beta_tilde_bounds (sq : ℚ → ℚ) (C H W : ℕ) (beta : List ℚ) (t : ℕ)
    (hβ : ∀ b ∈ beta, 0 < b ∧ b < 1) (ht : t < beta.length) :
    0 ≤ (mkConfigs sq C H W beta).beta_tilde.getD t 0 ∧
    (mkConfigs sq C H W beta).beta_tilde.getD t 0 ≤ beta.getD t 0 := by
  rw [beta_tilde_getD sq C H W beta t ht]
  have hβt : 0 < beta.getD t 0 ∧ beta.getD t 0 < 1 := by
    refine hβ _ ?_
    rw [List.getD_eq_getElem _ _ ht]
    exact List.getElem_mem ht
  have hab := alphaBarOf_pos_lt beta hβ t ht
  have hprev : (alphaBarOf beta).getD t 0 ≤
      (alpha_bar_tm1 (alphaBarOf beta)).getD t 0 ∧
      (alpha_bar_tm1 (alphaBarOf beta)).getD t 0 ≤ 1 := by
    cases t with
    | zero =>
      rw [alpha_bar_tm1_getD_zero]
      exact ⟨hab.2.le, le_refl 1⟩
    | succ u =>
      rw [alpha_bar_tm1_getD_succ _ (u + 1) (by omega) (by simp; omega)]
      have hu : u + 1 - 1 = u := by omega
      rw [hu]
      have habu := alphaBarOf_pos_lt beta hβ u (by omega)
      exact ⟨alphaBarOf_succ_le beta hβ u ht, habu.2.le⟩
  have hd : 0 < 1 - (alphaBarOf beta).getD t 0 := by linarith [hab.2]
  constructor
  · apply div_nonneg
    · apply mul_nonneg hβt.1.le
      linarith [hprev.2]
    · exact hd.le
  · rw [div_le_iff₀ hd]
    have h1 : 1 - (alpha_bar_tm1 (alphaBarOf beta)).getD t 0 ≤
        1 - (alphaBarOf beta).getD t 0 := by linarith [hprev.1]
    calc beta.getD t 0 * (1 - (alpha_bar_tm1 (alphaBarOf beta)).getD t 0)
        ≤ beta.getD t 0 * (1 - (alphaBarOf beta).getD t 0) :=
          mul_le_mul_of_nonneg_left h1 hβt.1.le
      _ = beta.getD t 0 * (1 - (alphaBarOf beta).getD t 0) := rfl

/-- Witness for claim C2: the loop theorem applied at S = 2 with a concrete
session, identity denoising stub and zero noise. -/
theorem c2_sampling_loop_witness :
    (1 ≤ 2) ∧
    (((List.range 2).map (fun i => 2 - 1 - i)).length = 2 ∧
      List.Chain' (fun a b => b + 1 = a) ((List.range 2).map (fun i => 2 - 1 - i)) ∧
      ((List.range 2).map (fun i => 2 - 1 - i)).getLastD 1 = 0 ∧
      sample_x0 (model_p_sample idSq (mkConfigs idSq 1 1 1 betaHalf2) epsId
          zeroNoiseFam) unitTensor 2 =
        ((List.range 2).map (fun i => 2 - 1 - i)).foldlM
          (fun x t => p_sample idSq (mkConfigs idSq 1 1 1 betaHalf2) x
            (List.replicate (x.shape.headD 0) t) (epsId x t) (zeroNoiseFam t))
          unitTensor) :=
  ⟨by decide, c2_sampling_loop idSq (mkConfigs idSq 1 1 1 betaHalf2) epsId
    zeroNoiseFam unitTensor 2 (by decide)⟩

/-- Witness for claim C3: the coefficient theorem applied at t = 1 of the
concrete two-step schedule. -/
theorem c3_schedule_coefficients_witness :
    (1 < betaHalf2.length) ∧
    ((alpha_bar_tm1 (mkConfigs idSq 1 1 1 betaHalf2).alpha_bar).getD 0 0 = 1 ∧
    (0 < 1 →
      (alpha_bar_tm1 (mkConfigs idSq 1 1 1 betaHalf2).alpha_bar).getD 1 0 =
        (mkConfigs idSq 1 1 1 betaHalf2).alpha_bar.getD (1 - 1) 0) ∧
    (mkConfigs idSq 1 1 1 betaHalf2).beta_tilde.getD 1 0 =
      (mkConfigs idSq 1 1 1 betaHalf2).beta.getD 1 0 *
          (1 - (alpha_bar_tm1 (mkConfigs idSq 1 1 1 betaHalf2).alpha_bar).getD 1 0) /
        (1 - (mkConfigs idSq 1 1 1 betaHalf2).alpha_bar.getD 1 0) ∧
    (mkConfigs idSq 1 1 1 betaHalf2).mu_tilde_coef1.getD 1 0 =
      (mkConfigs idSq 1 1 1 betaHalf2).beta.getD 1 0 *
          idSq ((alpha_bar_tm1 (mkConfigs idSq 1 1 1 betaHalf2).alpha_bar).getD 1 0) /
        (1 - (mkConfigs idSq 1 1 1 betaHalf2).alpha_bar.getD 1 0) ∧
    (mkConfigs idSq 1 1 1 betaHalf2).mu_tilde_coef2.getD 1 0 =
      idSq ((mkConfigs idSq 1 1 1 betaHalf2).alpha.getD 1 0) *
          (1 - (alpha_bar_tm1 (mkConfigs idSq 1 1 1 betaHalf2).alpha_bar).getD 1 0) /
        (1 - (mkConfigs idSq 1 1 1 betaHalf2).alpha_bar.getD 1 0) ∧
    (mkConfigs idSq 1 1 1 betaHalf2).sigma2.getD 1 0 =
      (mkConfigs idSq 1 1 1 betaHalf2).beta.getD 1 0) :=
  ⟨by decide, c3_schedule_coefficients idSq 1 1 1 betaHalf2 1 (by decide)⟩

theorem betaHalf2_mem : ∀ b ∈ betaHalf2, 0 < b ∧ b < 1 := by
  intro b hb
  simp only [betaHalf2, List.mem_cons, List.not_mem_nil, or_false] at hb
  rcases hb with rfl | rfl <;> norm_num

/-- Witness for claim C8: the bound theorem applied at t = 1 of the concrete
two-step schedule with values in (0,1). -/
theorem c8_beta_tilde_bounds_witness :
    ((∀ b ∈ betaHalf2, 0 < b ∧ b < 1) ∧ 1 < betaHalf2.length) ∧
    (0 ≤ (mkConfigs idSq 1 1 1 betaHalf2).beta_tilde.getD 1 0 ∧
      (mkConfigs idSq 1 1 1 betaHalf2).beta_tilde.getD 1 0 ≤ betaHalf2.getD 1 0) :=
  ⟨⟨betaHalf2_mem, by decide⟩,
    c8_beta_tilde_bounds idSq 1 1 1 betaHalf2 1 betaHalf2_mem (by decide)⟩

theorem filterMap_congr_mem {α β : Type} (l : List α) (f g : α → Option β)
    (h : ∀ a ∈ l, f a = g a) : l.filterMap f = l.filterMap g := by
  induction l with
  | nil => rfl
  | cons a l ih =>
    rw [List.filterMap_cons, List.filterMap_cons, h a (by simp),
      ih (fun b hb => h b (by simp [hb]))]

theorem filterMap_if_eq_filter_map {α β : Type} (p : α → Prop) [DecidablePred p]
    (f : α → β) (l : List α) :
    (l.filterMap (fun a => if p a then some (f a) else none)) =
      (l.filter (fun a => decide (p a))).map f := by
  induction l with
  | nil => rfl
  | cons a l ih => by_cases hp : p a <;> simp [hp, ih]

/-- Claim C6: during a run of the sampling loop, a snapshot of the current
sample is emitted exactly at the 0-based elapsed-step indices with
index % 100 = 0 or (index >= 900 and index % 25 = 0), tagged with the current
timestep t = S - index - 1 and holding the sample the plain loop reaches after
index + 1 transitions; and the returned output equals that of the loop with
snapshotting removed. -/
theorem c6_snapshots (step : Tensor → ℕ → Except InferenceError Tensor)
    (xt : Tensor) (S : ℕ) (x : Tensor) (snaps : List (ℕ × Tensor))
    (h : sample_x0_snaps step xt S = Except.ok (x, snaps)) :
    sample_x0 step xt S = Except.ok x ∧
    snaps = (List.range S).filterMap (fun t_ =>
      if snap_cond t_ then
        match prefix_run step S (t_ + 1) xt with
        | Except.ok y => some (S - t_ - 1, y)
        | Except.error _ => none
      else none) ∧
    snaps.map Prod.fst =
      ((List.range S).filter (fun t_ => decide (snap_cond t_))).map
        (fun t_ => S - t_ - 1) := by
  have hgo : sample_x0_snaps_go step S S 0 xt = Except.ok (x, snaps) := h
  have h1 : sample_x0 step xt S = Except.ok x := by
    show sample_x0_go step S S 0 xt = Except.ok x
    rw [← sample_x0_snaps_go_fst step S S 0 xt, hgo]
    rfl
  have h1go : sample_x0_go step S S 0 xt = Except.ok x := h1
  have h2 : snaps = (List.range S).filterMap (fun t_ =>
      if snap_cond t_ then
        match prefix_run step S (t_ + 1) xt with
        | Except.ok y => some (S - t_ - 1, y)
        | Except.error _ => none
      else none) := by
    have hchar := sample_x0_snaps_go_char step S S 0 xt x snaps hgo
    simp only [Nat.zero_add] at hchar
    exact hchar
  refine ⟨h1, h2, ?_⟩
  rw [h2, List.map_filterMap]
  have hcong : ∀ t_ ∈ List.range S,
      (Option.map Prod.fst (if snap_cond t_ then
        match prefix_run step S (t_ + 1) xt with
        | Except.ok y => some (S - t_ - 1, y)
        | Except.error _ => none
      else none)) = (if snap_cond t_ then some (S - t_ - 1) else none) := by
    intro t_ ht_
    by_cases hc : snap_cond t_
    · rw [if_pos hc, if_pos hc]
      obtain ⟨y, hy⟩ := sample_x0_go_ok_of_ok step S S (t_ + 1) 0 xt x
        (by simp at ht_; omega) h1go
      show Option.map Prod.fst (match sample_x0_go step S (t_ + 1) 0 xt with
        | Except.ok y => some (S - t_ - 1, y)
        | Except.error _ => none) = some (S - t_ - 1)
      rw [hy]
      rfl
    · rw [if_neg hc, if_neg hc]
      rfl
  rw [filterMap_congr_mem _ _ _ hcong, filterMap_if_eq_filter_map]

/-- Witness for claim C6: a one-step run with a stub transition; the single
elapsed index 0 satisfies the snapshot guard, so exactly one snapshot is
emitted, tagged with timestep 0. -/
theorem c6_snapshots_witness :
    sample_x0_snaps okStep unitTensor 1 = Except.ok (unitTensor, [(0, unitTensor)]) ∧
    (sample_x0 okStep unitTensor 1 = Except.ok unitTensor ∧
    [(0, unitTensor)] = (List.range 1).filterMap (fun t_ =>
      if snap_cond t_ then
        match prefix_run okStep 1 (t_ + 1) unitTensor with
        | Except.ok y => some (1 - t_ - 1, y)
        | Except.error _ => none
      else none) ∧
    ([(0, unitTensor)] : List (ℕ × Tensor)).map Prod.fst =
      ((List.range 1).filter (fun t_ => decide (snap_cond t_))).map
        (fun t_ => 1 - t_ - 1)) :=
  ⟨rfl, c6_snapshots okStep unitTensor 1 unitTensor [(0, unitTensor)] rfl⟩

/-- Claim C1: for a sample xt of shape (n, c, h, w), a per-batch timestep
vector t and a noise estimate of the same shape as xt, p_sample succeeds and
returns, elementwise, mean + sqrt(sigma2_t) eps with
eps_coef = (1 - alpha_t) / sqrt(1 - alpha_bar_t),
mean = (xt - eps_coef eps_theta) / sqrt(alpha_t), sigma2 = beta, and eps the
fresh draw of xt's shape; the formula is uniform in t, with no special-casing
of t = 0. -/
theorem c1_p_sample (sq : ℚ → ℚ) (C H W n c h w : ℕ) (beta : List ℚ)
    (xt eps_theta : Tensor) (t : List ℕ) (noise : List ℕ → ℚ)
    (hx : xt.shape = [n, c, h, w]) (he : eps_theta.shape = xt.shape)
    (ht : t.length = n) :
    ∃ r, p_sample sq (mkConfigs sq C H W beta) xt t eps_theta noise =
        Except.ok r ∧
      r.shape = xt.shape ∧
      (mkConfigs sq C H W beta).sigma2 = beta ∧
      ∀ b i j k : ℕ, b < n → i < c → j < h → k < w →
        r.val [b, i, j, k] =
          (xt.val [b, i, j, k] -
              (1 - (mkConfigs sq C H W beta).alpha.getD (t.getD b 0) 0) /
                sq (1 - (mkConfigs sq C H W beta).alpha_bar.getD (t.getD b 0) 0) *
                eps_theta.val [b, i, j, k]) /
            sq ((mkConfigs sq C H W beta).alpha.getD (t.getD b 0) 0) +
          sq (beta.getD (t.getD b 0) 0) * noise [b, i, j, k] := by
  subst ht
  simp only [p_sample, ew2, ew1_shape, gather_shape, Tensor.shape_mk, hx, he,
    broadcastShapes_self, bcast_coef]
  refine ⟨_, rfl, by simp [hx], rfl, ?_⟩
  intro b i j k hb hi hj hk
  simp only [Tensor.val_mk, ew1_val, gather,
    projIx_four t.length c h w b i j k hb hi hj hk,
    projIx_gather t.length b i j k hb, projIx_gather t.length b 0 0 0 hb,
    List.headD_cons, mkConfigs_sigma2]
  rw [one_div_mul_eq_div]

/-- Witness for claim C1: the p_sample theorem applied to the concrete
session at batch size 1 with timestep vector [0] — the terminal step, where
the stochastic noise term is still applied. -/
theorem c1_p_sample_witness :
    (unitTensor.shape = [1, 1, 1, 1] ∧ unitTensor.shape = unitTensor.shape ∧
      ([0] : List ℕ).length = 1) ∧
    (∃ r, p_sample idSq (mkConfigs idSq 1 1 1 betaHalf2) unitTensor [0]
        unitTensor zeroNoise = Except.ok r ∧
      r.shape = unitTensor.shape ∧
      (mkConfigs idSq 1 1 1 betaHalf2).sigma2 = betaHalf2 ∧
      ∀ b i j k : ℕ, b < 1 → i < 1 → j < 1 → k < 1 →
        r.val [b, i, j, k] =
          (unitTensor.val [b, i, j, k] -
              (1 - (mkConfigs idSq 1 1 1 betaHalf2).alpha.getD
                  (([0] : List ℕ).getD b 0) 0) /
                idSq (1 - (mkConfigs idSq 1 1 1 betaHalf2).alpha_bar.getD
                  (([0] : List ℕ).getD b 0) 0) *
                unitTensor.val [b, i, j, k]) /
            idSq ((mkConfigs idSq 1 1 1 betaHalf2).alpha.getD
              (([0] : List ℕ).getD b 0) 0) +
          idSq (betaHalf2.getD (([0] : List ℕ).getD b 0) 0) *
            zeroNoise [b, i, j, k]) :=
  ⟨⟨rfl, rfl, rfl⟩, c1_p_sample idSq 1 1 1 1 1 1 1 betaHalf2 unitTensor
    unitTensor [0] zeroNoise rfl rfl rfl⟩

/-- Counterexample to claim C7 as stated: a denoising stub returning shape
(1), which disagrees with the sample's shape (1, 1, 1, 1), raises no error at
all — the mismatched tensor broadcasts, the one-step run succeeds and an
output sample is produced. -/
theorem c7_counterexample :
    (epsBad1 unitTensor 0).shape ≠ unitTensor.shape ∧
    (sample_x0 (model_p_sample idSq (mkConfigs idSq 1 1 1 betaHalf2) epsBad1
      zeroNoiseFam) unitTensor 1).isOk = true := by
  constructor
  · decide
  · rfl

/-- Claim C7 (amended): when the denoising function's output shape is not
broadcast-compatible with the sample — the batch-coefficient product
broadcasts to s1 but s1 does not broadcast against the sample's shape — the
elementwise arithmetic of p_sample raises the shape-mismatch error and the
loop aborts with that error, producing no output sample; a mismatched but
broadcast-compatible shape is silently accepted instead. -/
theorem c7_amended (sq : ℚ → ℚ) (cfg : Configs)
    (eps_model : Tensor → ℕ → Tensor) (noise : ℕ → List ℕ → ℚ) (xt : Tensor)
    (S : ℕ) (hS : 1 ≤ S) (s1 : List ℕ)
    (hb1 : broadcastShapes [xt.shape.headD 0, 1, 1, 1]
      (eps_model xt (S - 1)).shape = some s1)
    (hb2 : broadcastShapes xt.shape s1 = none) :
    p_sample sq cfg xt (List.replicate (xt.shape.headD 0) (S - 1))
        (eps_model xt (S - 1)) (noise (S - 1)) =
      Except.error InferenceError.shapeMismatchError ∧
    sample_x0 (model_p_sample sq cfg eps_model noise) xt S =
      Except.error InferenceError.shapeMismatchError := by
  have hn : (List.replicate (xt.shape.headD 0) (S - 1)).length =
      xt.shape.headD 0 := List.length_replicate _ _
  have hp : p_sample sq cfg xt (List.replicate (xt.shape.headD 0) (S - 1))
      (eps_model xt (S - 1)) (noise (S - 1)) =
      Except.error InferenceError.shapeMismatchError := by
    simp only [p_sample, ew2, ew1_shape, gather_shape, Tensor.shape_mk, hn,
      broadcastShapes_self, hb1, hb2]
  exact ⟨hp, sample_x0_error_first _ xt S hS _ hp⟩

/-- Witness for the amended claim C7: a stub of shape (3) against a sample of
shape (1, 1, 1, 2); the coefficient product broadcasts to (1, 1, 1, 3), which
does not broadcast against the sample, so the one-step run aborts with the
shape-mismatch error. -/
theorem c7_amended_witness :
    (1 ≤ 1 ∧
      broadcastShapes [wideTensor.shape.headD 0, 1, 1, 1]
        (epsBad3 wideTensor (1 - 1)).shape = some [1, 1, 1, 3] ∧
      broadcastShapes wideTensor.shape [1, 1, 1, 3] = none) ∧
    (p_sample idSq (mkConfigs idSq 1 1 1 betaHalf2) wideTensor
        (List.replicate (wideTensor.shape.headD 0) (1 - 1))
        (epsBad3 wideTensor (1 - 1)) (zeroNoiseFam (1 - 1)) =
      Except.error InferenceError.shapeMismatchError ∧
    sample_x0 (model_p_sample idSq (mkConfigs idSq 1 1 1 betaHalf2) epsBad3
        zeroNoiseFam) wideTensor 1 =
      Except.error InferenceError.shapeMismatchError) :=
  ⟨⟨by decide, by decide, by decide⟩,
    c7_amended idSq (mkConfigs idSq 1 1 1 betaHalf2) epsBad3 zeroNoiseFam
      wideTensor 1 (by decide) [1, 1, 1, 3] (by decide) (by decide)⟩

end Polyffusion
